import Mathlib

/-!
Verification of the eleve n-gram trie engine (repository np/eleve).

The repository source at hand is the Python binding
(src/eleve/c_leveldb/python.cpp).  The binding wraps a core engine
(LeveldbTrie / LeveldbStorage and the key codec) whose sources are not in
`src/`; those parts are modelled from the specification, as flagged on each
definition.  Definitions taken from `python.cpp` (the token conversion,
the wrapper methods, and the `float` return types of the Storage query
wrappers) are flagged with the source lines.
-/

/-- A Python object as seen by `convert` in python.cpp: either a unicode
string (`PyUnicode_Check` succeeds) or some other object, here represented
by the cases the claims need (an integer). -/
inductive PyObj where
  | str : String → PyObj
  | intVal : Int → PyObj
deriving DecidableEq

/-- Python's `str()` on a `PyObj` (the behaviour of `PyObject_Str` followed
by `PyUnicode_AsUTF8AndSize` in python.cpp lines 20-24): a unicode string
is its own string form; an integer renders in decimal. -/
def pyStr : PyObj → String
  | PyObj.str s => s
  | PyObj.intVal n => toString n

/-- From python.cpp lines 5-28: each element that is already unicode is
taken as-is (lines 12-17); any other element is replaced by its `str()`
form (lines 18-25). -/
def convert (l : List PyObj) : List String :=
  l.map fun o =>
    match o with
    | PyObj.str s => s
    | o => pyStr o

/-- Tokens of the engine are strings (the binding converts every element
to a string before the core sees it). -/
abbrev Token := String

/-- An n-gram: a sequence of tokens. -/
abbrev Ngram := List Token

/-- Modelled from the spec: the persistent count map of a Trie, as an
association list from encoded n-grams to their accumulated counts
(the LeveldbTrie core is not under src/).  `bumpCount m s f` increments
the entry for `s` by `f`, creating it if absent. -/
def bumpCount : List (Ngram × Int) → Ngram → Int → List (Ngram × Int)
  | [], s, f => [(s, f)]
  | (k, v) :: rest, s, f =>
    if k = s then (k, v + f) :: rest else (k, v) :: bumpCount rest s f

/-- Modelled from the spec: reading a count from the map; unseen sequences
read 0 (spec: "counts for unseen sequences are 0"). -/
def getCount : List (Ngram × Int) → Ngram → Int
  | [], _ => 0
  | (k, v) :: rest, s => if k = s then v else getCount rest s

/-- Modelled from the spec: the state of a LeveldbTrie (core not under
src/): the count map, the per-depth `(mean, stdev)` normalization table,
the `dirty` flag, and the incrementally maintained maximum stored depth. -/
structure LeveldbTrie where
  counts : List (Ngram × Int)
  normalization : List (ℝ × ℝ)
  dirty : Bool
  maxDepth : Nat

/-- Modelled from the spec: a freshly opened Trie with no stored entries. -/
def emptyTrie : LeveldbTrie :=
  { counts := [], normalization := [], dirty := false, maxDepth := 0 }

/-- Modelled from the spec: `add_ngram(sequence, freq)` increments the
stored count for the sequence by `freq`, creates the entry if absent,
marks the structure dirty and updates the tracked maximum depth. -/
def LeveldbTrie.add_ngram (t : LeveldbTrie) (s : Ngram) (f : Int) : LeveldbTrie :=
  { counts := bumpCount t.counts s f
    normalization := t.normalization
    dirty := true
    maxDepth := max t.maxDepth s.length }

/-- Modelled from the spec: `query_count(sequence)` returns the exact
stored count, 0 if never observed; no error on unseen input. -/
def LeveldbTrie.query_count (t : LeveldbTrie) (s : Ngram) : Int :=
  getCount t.counts s

/-- Modelled from the spec: `max_depth()` is the longest sequence length
ever stored. -/
def LeveldbTrie.max_depth (t : LeveldbTrie) : Nat :=
  t.maxDepth

/-- Modelled from the spec: `clear()` erases all persisted entries and
normalization data and resets `dirty` to false. -/
def LeveldbTrie.clear (_t : LeveldbTrie) : LeveldbTrie :=
  { counts := [], normalization := [], dirty := false, maxDepth := 0 }

/-- From python.cpp lines 36-39: `add_ngram_` converts the Python list and
adds with the given frequency. -/
def PyLeveldbTrie.add_ngram_ (t : LeveldbTrie) (ngram : List PyObj) (freq : Int) : LeveldbTrie :=
  t.add_ngram (convert ngram) freq

/-- From python.cpp lines 40-43: the one-argument overload uses frequency 1. -/
def PyLeveldbTrie.add_ngram__ (t : LeveldbTrie) (ngram : List PyObj) : LeveldbTrie :=
  t.add_ngram (convert ngram) 1

/-- From python.cpp lines 44-47: `query_count_` converts the list and reads
the count. -/
def PyLeveldbTrie.query_count_ (t : LeveldbTrie) (ngram : List PyObj) : Int :=
  t.query_count (convert ngram)

/-- A batch of `add_ngram` calls (sequence, frequency) applied in order to
a fresh Trie. -/
def applyAdds (ops : List (Ngram × Int)) : LeveldbTrie :=
  ops.foldl (fun t p => t.add_ngram p.1 p.2) emptyTrie

/-- The sum of the frequency weights of the calls in a batch made with
exactly the sequence `s`. -/
def sumFreq (ops : List (Ngram × Int)) (s : Ngram) : Int :=
  ((ops.filter fun p => p.1 == s).map Prod.snd).sum

theorem getCount_bumpCount (m : List (Ngram × Int)) (k s : Ngram) (f : Int) :
    getCount (bumpCount m k f) s = getCount m s + (if k = s then f else 0) := by
  induction m with
  | nil =>
    by_cases h : k = s <;> simp [bumpCount, getCount, h]
  | cons p rest ih =>
    obtain ⟨a, v⟩ := p
    by_cases hak : a = k
    · subst hak
      by_cases has : a = s
      · subst has
        simp [bumpCount, getCount]
      · simp [bumpCount, getCount, has]
    · by_cases has : a = s
      · have hks : ¬ k = s := by
          rw [← has]
          exact fun h => hak h.symm
        have hsk : ¬ s = k := fun h => hks h.symm
        simp [bumpCount, getCount, hak, has, hks, hsk]
      · simp [bumpCount, getCount, hak, has, ih]

theorem query_count_foldl (ops : List (Ngram × Int)) (t : LeveldbTrie) (s : Ngram) :
    (ops.foldl (fun t p => t.add_ngram p.1 p.2) t).query_count s
      = t.query_count s + sumFreq ops s := by
  induction ops generalizing t with
  | nil => simp [sumFreq]
  | cons p rest ih =>
    obtain ⟨k, f⟩ := p
    have hstep : (t.add_ngram k f).query_count s
        = t.query_count s + (if k = s then f else 0) := by
      simp [LeveldbTrie.add_ngram, LeveldbTrie.query_count, getCount_bumpCount]
    by_cases h : k = s
    · simp only [List.foldl_cons, ih, hstep, sumFreq, List.filter_cons]
      simp [h]
      ring
    · simp only [List.foldl_cons, ih, hstep, sumFreq, List.filter_cons]
      simp [h]

/-- Modelled from the spec: the Sequence Codec (its source is not under
src/).  Bytes are modelled as natural numbers.  A token is written as its
explicit length followed by its character codes, so token content cannot
be confused with structure. -/
def encodeToken (t : Token) : List Nat :=
  t.length :: (t.data.map Char.toNat)

/-- Modelled from the spec: the concatenated length-prefixed tokens of a
sequence. -/
def encodeBody : List Token → List Nat
  | [] => []
  | t :: ts => encodeToken t ++ encodeBody ts

/-- Modelled from the spec: `encode(sequence)` — a depth marker (the
number of tokens) together with the length-prefixed tokens. -/
def encode (s : List Token) : List Nat :=
  s.length :: encodeBody s

/-- Modelled from the spec: read one length-prefixed token from a byte
stream, returning the token and the remaining bytes. -/
def readToken : List Nat → Option (Token × List Nat)
  | [] => none
  | l :: rest =>
    if l ≤ rest.length then
      some (String.mk ((rest.take l).map Char.ofNat), rest.drop l)
    else none

/-- Modelled from the spec: read `n` length-prefixed tokens from a byte
stream. -/
def readTokens : Nat → List Nat → Option (List Token × List Nat)
  | 0, rest => some ([], rest)
  | n + 1, rest =>
    match readToken rest with
    | none => none
    | some (t, rest') =>
      match readTokens n rest' with
      | none => none
      | some (ts, rest'') => some (t :: ts, rest'')

/-- Modelled from the spec: `decode(bytes)` reads the depth marker, then
that many length-prefixed tokens, and requires the bytes to be fully
consumed. -/
def decode (bs : List Nat) : Option (List Token) :=
  match bs with
  | [] => none
  | n :: rest =>
    match readTokens n rest with
    | some (ts, []) => some ts
    | _ => none

theorem readToken_encodeToken (t : Token) (rest : List Nat) :
    readToken (encodeToken t ++ rest) = some (t, rest) := by
  have hlen : (t.data.map Char.toNat).length = t.length := by
    rw [List.length_map]
    rfl
  show readToken (t.length :: (t.data.map Char.toNat ++ rest)) = some (t, rest)
  have hcond : t.length ≤ (t.data.map Char.toNat ++ rest).length := by
    rw [List.length_append, hlen]
    omega
  simp only [readToken, if_pos hcond]
  have htake : (t.data.map Char.toNat ++ rest).take t.length = t.data.map Char.toNat := by
    rw [← hlen]
    exact List.take_left _ _
  have hdrop : (t.data.map Char.toNat ++ rest).drop t.length = rest := by
    rw [← hlen]
    exact List.drop_left _ _
  rw [htake, hdrop, List.map_map]
  have hmap : List.map (Char.ofNat ∘ Char.toNat) t.data = t.data := by
    have hfun : Char.ofNat ∘ Char.toNat = id := funext fun c => Char.ofNat_toNat c
    rw [hfun, List.map_id]
  rw [hmap]

theorem readTokens_encodeBody (s : List Token) (rest : List Nat) :
    readTokens s.length (encodeBody s ++ rest) = some (s, rest) := by
  induction s generalizing rest with
  | nil => simp [readTokens, encodeBody]
  | cons t ts ih =>
    show readTokens (ts.length + 1) ((encodeToken t ++ encodeBody ts) ++ rest)
        = some (t :: ts, rest)
    rw [List.append_assoc]
    simp only [readTokens, readToken_encodeToken, ih]

/-- Modelled from the spec: the counts of the immediate children of a
context `s` — the stored entries exactly one token longer than `s`, whose
key starts with `s`, with count > 0. -/
def childCounts (m : List (Ngram × Int)) (s : Ngram) : List Int :=
  (m.filter fun kv =>
      kv.1.length == s.length + 1 && kv.1.take s.length == s && decide (0 < kv.2)).map
    Prod.snd

/-- Modelled from the spec: the total mass of a child distribution. -/
noncomputable def childTotal (cs : List Int) : ℝ :=
  (cs.map fun c : Int => (c : ℝ)).sum

/-- Modelled from the spec: branching entropy `H = -Σ p log2 p` of the
distribution given by a list of positive counts, with
`p = count / total`; an empty list (a context with no children) gives 0,
a defined edge case rather than an error. -/
noncomputable def entropyOf (cs : List Int) : ℝ :=
  if cs = [] then 0
  else
    -((cs.map fun c : Int =>
        ((c : ℝ) / childTotal cs) * Real.logb 2 ((c : ℝ) / childTotal cs)).sum)

/-- Modelled from the spec: `query_entropy(sequence)` over a count map. -/
noncomputable def query_entropy_c (m : List (Ngram × Int)) (s : Ngram) : ℝ :=
  entropyOf (childCounts m s)

/-- Modelled from the spec: `query_ev(sequence)` — the entropy at the
sequence minus the entropy at the sequence with its last token removed. -/
noncomputable def query_ev_c (m : List (Ngram × Int)) (s : Ngram) : ℝ :=
  query_entropy_c m s - query_entropy_c m s.dropLast

/-- Modelled from the spec: `query_entropy` of a Trie. -/
noncomputable def LeveldbTrie.query_entropy (t : LeveldbTrie) (s : Ngram) : ℝ :=
  query_entropy_c t.counts s

/-- Modelled from the spec: `query_ev` of a Trie. -/
noncomputable def LeveldbTrie.query_ev (t : LeveldbTrie) (s : Ngram) : ℝ :=
  query_ev_c t.counts s

/-- Modelled from the spec: `query_autonomy(sequence)` — the z-score of
`query_ev` under the normalization entry for the depth of the sequence;
`none` models the explicit "normalization unavailable" failure when no
entry exists for that depth or when its standard deviation is zero. -/
noncomputable def LeveldbTrie.query_autonomy (t : LeveldbTrie) (s : Ngram) : Option ℝ :=
  match t.normalization.get? (s.length - 1) with
  | none => none
  | some (m, sd) => if sd = 0 then none else some ((t.query_ev s - m) / sd)

/-- Modelled from the spec: the stored keys at a given depth. -/
def nodesAtDepth (m : List (Ngram × Int)) (d : Nat) : List Ngram :=
  (m.filter fun kv => kv.1.length == d).map Prod.fst

/-- Modelled from the spec: population mean of a list of reals. -/
noncomputable def meanOf (l : List ℝ) : ℝ :=
  l.sum / l.length

/-- Modelled from the spec: population standard deviation of a list of
reals. -/
noncomputable def stdevOf (l : List ℝ) : ℝ :=
  Real.sqrt (((l.map fun x => (x - meanOf l) ^ 2).sum) / l.length)

/-- Modelled from the spec: the normalization pass — for every depth from
1 to the maximum stored depth, the `(mean, stdev)` of the
expected-variation metric over all nodes at that depth. -/
noncomputable def computeNorm (m : List (Ngram × Int)) (md : Nat) : List (ℝ × ℝ) :=
  (List.range md).map fun i =>
    (meanOf ((nodesAtDepth m (i + 1)).map (query_ev_c m)),
     stdevOf ((nodesAtDepth m (i + 1)).map (query_ev_c m)))

/-- Modelled from the spec: `update_stats` recomputes the per-depth
normalization table from the current counts (the root-scoped full pass)
and clears the dirty flag. -/
noncomputable def LeveldbTrie.update_stats (t : LeveldbTrie) : LeveldbTrie :=
  { t with normalization := computeNorm t.counts t.maxDepth, dirty := false }

/-- From python.cpp lines 48-51: the entropy wrapper converts the Python
list first. -/
noncomputable def PyLeveldbTrie.query_entropy_ (t : LeveldbTrie) (l : List PyObj) : ℝ :=
  t.query_entropy (convert l)

/-- Modelled from the spec: a Storage owns one Trie per order from 1 to
the configured maximum, plus the terminal token set. -/
structure LeveldbStorage where
  ngram_length : Nat
  terminals : List Token
  tries : List LeveldbTrie

/-- Modelled from the spec: a fresh Storage with one empty Trie per
order. -/
def mkStorage (order : Nat) (terminals : List Token) : LeveldbStorage :=
  { ngram_length := order, terminals := terminals
    tries := List.replicate order emptyTrie }

/-- Modelled from the spec: the default boundary token used when no
terminals are given. -/
def defaultTerminal : Token := "^"

/-- The Trie of order `i + 1` inside a Storage. -/
def LeveldbStorage.nthTrie (st : LeveldbStorage) (i : Nat) : LeveldbTrie :=
  st.tries.getD i emptyTrie

/-- Modelled from the spec: Storage `add_ngram` dispatches to the Trie
whose order is the length of the sequence (out-of-range orders touch no
Trie). -/
def LeveldbStorage.add_ngram (st : LeveldbStorage) (s : Ngram) (f : Int) : LeveldbStorage :=
  if 1 ≤ s.length ∧ s.length ≤ st.ngram_length then
    { st with
      tries := st.tries.set (s.length - 1) ((st.nthTrie (s.length - 1)).add_ngram s f) }
  else st

/-- The sliding windows of length `k` of a list. -/
def windowsOfLen (l : List Token) (k : Nat) : List (List Token) :=
  (List.range (l.length + 1 - k)).map fun i => (l.drop i).take k

/-- All sliding windows of every length from 1 to `n`. -/
def allWindows (l : List Token) (n : Nat) : List (List Token) :=
  (((List.range n).map fun k => windowsOfLen l (k + 1))).flatten

/-- Modelled from the spec: the sentence padded with maximum-order-minus-1
terminal tokens at both ends, so every window up to the maximum order is
well-formed at the edges. -/
def paddedOf (st : LeveldbStorage) (s : List Token) : List Token :=
  List.replicate (st.ngram_length - 1) (st.terminals.headD defaultTerminal) ++ s ++
    List.replicate (st.ngram_length - 1) (st.terminals.headD defaultTerminal)

/-- Modelled from the spec: `add_sentence` pads the sentence and adds
every sliding window of every order from 1 to `ngram_length` with the
given frequency. -/
def LeveldbStorage.add_sentence (st : LeveldbStorage) (s : List Token) (f : Int) :
    LeveldbStorage :=
  (allWindows (paddedOf st s) st.ngram_length).foldl (fun acc w => acc.add_ngram w f) st

/-- Modelled from the spec: Storage `query_count` dispatches to the Trie
whose order equals the sequence length, and fails (`none`) on an
unsupported order. -/
def LeveldbStorage.query_count (st : LeveldbStorage) (s : Ngram) : Option Int :=
  if 1 ≤ s.length ∧ s.length ≤ st.ngram_length then
    some ((st.nthTrie (s.length - 1)).query_count s)
  else none

/-- Fuel-driven binary logarithm (the fuel only bounds the recursion; with
fuel ≥ n it computes the index of the highest set bit of `n`). -/
def log2fuel : Nat → Nat → Nat
  | 0, _ => 0
  | fuel + 1, n => if 2 ≤ n then log2fuel fuel (n / 2) + 1 else 0

/-- Index of the highest set bit of `n` (0 for `n ≤ 1`). -/
def natLog2 (n : Nat) : Nat := log2fuel n n

/-- The conversion of a natural magnitude to the nearest value exactly
representable in a C `float` (IEEE-754 single precision: a 24-bit
significand, rounding ties to even), as performed implicitly by the
`float` returns in python.cpp lines 106-121. -/
def roundFloat32 (n : Nat) : Nat :=
  if natLog2 n < 24 then n
  else
    (fun s =>
      if 2 ^ (s - 1) < n % 2 ^ s ∨ (n % 2 ^ s = 2 ^ (s - 1) ∧ (n / 2 ^ s) % 2 = 1) then
        (n / 2 ^ s + 1) * 2 ^ s
      else (n / 2 ^ s) * 2 ^ s)
    (natLog2 n - 23)

/-- The C `float` conversion on integers, by sign symmetry. -/
def floatRoundInt (z : Int) : Int :=
  z.sign * (roundFloat32 z.natAbs : Int)

/-- From python.cpp lines 106-109: the Storage `query_count_` wrapper
converts the Python list, dispatches, and returns the result as a C
`float`. -/
def PyLeveldbStorage.query_count_ (st : LeveldbStorage) (l : List PyObj) : Option Int :=
  (st.query_count (convert l)).map floatRoundInt

/-- From python.cpp lines 98-101: the `add_sentence_` wrapper converts the
Python list and forwards the frequency. -/
def PyLeveldbStorage.add_sentence_ (st : LeveldbStorage) (l : List PyObj) (f : Int) :
    LeveldbStorage :=
  st.add_sentence (convert l) f

/-- From python.cpp lines 102-105: the one-argument `add_sentence` overload
uses frequency 1. -/
def PyLeveldbStorage.add_sentence__ (st : LeveldbStorage) (l : List PyObj) : LeveldbStorage :=
  st.add_sentence (convert l) 1

/-- The Trie of the spec's entropy scenario: counts a ↦ 10, ab ↦ 6,
ac ↦ 4. -/
def trieABC : LeveldbTrie :=
  applyAdds [(["a"], 10), (["a", "b"], 6), (["a", "c"], 4)]

/-- A Trie where the context "a" has exactly one observed child. -/
def trieOne : LeveldbTrie :=
  applyAdds [(["a"], 10), (["a", "b"], 6)]

/-- A Trie where the context "a" has two equally frequent children. -/
def trieEq : LeveldbTrie :=
  applyAdds [(["a", "b"], 5), (["a", "c"], 5)]

/-- Claim C6: the sequence codec round-trips — `decode (encode s) = s` for
every token sequence `s`, including the empty sequence and sequences with
repeated tokens; both functions are total. -/
theorem claim_C6_codec_roundtrip :
    ∀ s : List Token, decode (encode s) = some s := by
  intro s
  have h := readTokens_encodeBody s []
  rw [List.append_nil] at h
  simp only [encode, decode, h]

/-- Claim C1: `query_count(s)` equals the sum of the frequency weights of
all `add_ngram` calls made with exactly the sequence `s` (so it is 0 when
`s` was never added, `f` after one addition with frequency `f`, and
`f1 + f2` after two), and the one-argument `add_ngram` overload uses the
default weight 1. -/
theorem claim_C1_count_accumulation :
    (∀ (ops : List (Ngram × Int)) (s : Ngram),
        (applyAdds ops).query_count s = sumFreq ops s)
    ∧ (∀ (t : LeveldbTrie) (l : List PyObj),
        PyLeveldbTrie.add_ngram__ t l = PyLeveldbTrie.add_ngram_ t l 1) := by
  constructor
  · intro ops s
    have h := query_count_foldl ops emptyTrie s
    simpa [applyAdds, emptyTrie, LeveldbTrie.query_count, getCount] using h
  · intro t l
    rfl

/-- Claim C3: for every non-empty sequence, `query_ev` equals the entropy
at the sequence minus the entropy at the sequence with its last token
removed. -/
theorem claim_C3_ev_difference (t : LeveldbTrie) (s : Ngram) (_h : s ≠ []) :
    t.query_ev s = t.query_entropy s - t.query_entropy s.dropLast := rfl

/-- Witness for claim C3 at the scenario Trie and the context ["a"]. -/
theorem claim_C3_ev_difference_witness :
    trieABC.query_ev ["a"]
      = trieABC.query_entropy ["a"] - trieABC.query_entropy [] :=
  claim_C3_ev_difference trieABC ["a"] (by decide)

/-- Claim C7: `update_stats` is idempotent — re-invoking it with no
intervening `add_ngram` yields the identical per-depth normalization
table — `dirty` reads false immediately after any `update_stats`, and any
`add_ngram` sets `dirty` to true. -/
theorem claim_C7_update_stats_idempotent :
    (∀ t : LeveldbTrie,
        t.update_stats.update_stats.normalization = t.update_stats.normalization)
    ∧ (∀ t : LeveldbTrie, t.update_stats.dirty = false)
    ∧ (∀ (t : LeveldbTrie) (s : Ngram) (f : Int), (t.add_ngram s f).dirty = true) :=
  ⟨fun _ => rfl, fun _ => rfl, fun _ _ _ => rfl⟩

/-- Claim C8: after `clear()`, every `query_count` reads 0 (also for every
previously stored sequence), `max_depth` is back at its minimum 0, the
normalization table is erased, and `dirty` reads false. -/
theorem claim_C8_clear (t : LeveldbTrie) (s : Ngram) :
    t.clear.query_count s = 0 ∧ t.clear.max_depth = 0 ∧
      t.clear.normalization = [] ∧ t.clear.dirty = false :=
  ⟨rfl, rfl, rfl, rfl⟩

theorem convert_eq_map_pyStr (l : List PyObj) : convert l = l.map pyStr := by
  induction l with
  | nil => rfl
  | cons o rest ih =>
    show (match o with | PyObj.str s => s | o => pyStr o) :: convert rest
        = pyStr o :: rest.map pyStr
    rw [ih]
    cases o <;> rfl

/-- Claim C10: the binding stringifies every element before use (unicode
elements pass through, any other element becomes its `str()` form), so two
Python lists whose elements have identical string representations denote
the same token sequence: `add_ngram` through one followed by `query_count`
(or `query_entropy`) through the other observes the same value. -/
theorem claim_C10_stringified_tokens (t : LeveldbTrie) (l1 l2 : List PyObj) (f : Int)
    (h : l1.map pyStr = l2.map pyStr) :
    PyLeveldbTrie.query_count_ (PyLeveldbTrie.add_ngram_ t l1 f) l2
      = PyLeveldbTrie.query_count_ (PyLeveldbTrie.add_ngram_ t l1 f) l1
    ∧ PyLeveldbTrie.query_entropy_ (PyLeveldbTrie.add_ngram_ t l1 f) l2
      = PyLeveldbTrie.query_entropy_ (PyLeveldbTrie.add_ngram_ t l1 f) l1
    ∧ convert l1 = convert l2 := by
  have hc : convert l1 = convert l2 := by
    rw [convert_eq_map_pyStr, convert_eq_map_pyStr, h]
  exact ⟨by rw [PyLeveldbTrie.query_count_, PyLeveldbTrie.query_count_, hc],
    by rw [PyLeveldbTrie.query_entropy_, PyLeveldbTrie.query_entropy_, hc], hc⟩

/-- Witness for claim C10: the integer 1 and the string "1" observe the
same count after an addition through the integer form. -/
theorem claim_C10_stringified_tokens_witness :
    [PyObj.intVal 1].map pyStr = [PyObj.str "1"].map pyStr ∧
    PyLeveldbTrie.query_count_ (PyLeveldbTrie.add_ngram_ emptyTrie [PyObj.intVal 1] 5)
        [PyObj.str "1"]
      = PyLeveldbTrie.query_count_ (PyLeveldbTrie.add_ngram_ emptyTrie [PyObj.intVal 1] 5)
        [PyObj.intVal 1] :=
  ⟨by decide,
    (claim_C10_stringified_tokens emptyTrie [PyObj.intVal 1] [PyObj.str "1"] 5 (by decide)).1⟩

/-- Claim C4: when a normalization entry `(mean, stdev)` exists for the
depth of `s` and `stdev ≠ 0`, `query_autonomy s` returns
`(query_ev s - mean) / stdev`; with a missing entry or zero stdev it
returns the explicit unavailable value; `query_count` and `query_entropy`
never fail on unseen input — they return 0. -/
theorem claim_C4_autonomy :
    (∀ (t : LeveldbTrie) (s : Ngram) (m sd : ℝ),
        t.normalization.get? (s.length - 1) = some (m, sd) → sd ≠ 0 →
          t.query_autonomy s = some ((t.query_ev s - m) / sd))
    ∧ (∀ (t : LeveldbTrie) (s : Ngram),
        t.normalization.get? (s.length - 1) = none → t.query_autonomy s = none)
    ∧ (∀ (t : LeveldbTrie) (s : Ngram) (m : ℝ),
        t.normalization.get? (s.length - 1) = some (m, 0) → t.query_autonomy s = none)
    ∧ (∀ (cm : List (Ngram × Int)) (s : Ngram), (∀ v, (s, v) ∉ cm) → getCount cm s = 0)
    ∧ (∀ (cm : List (Ngram × Int)) (s : Ngram),
        childCounts cm s = [] → query_entropy_c cm s = 0) := by
  refine ⟨?_, ?_, ?_, ?_, ?_⟩
  · intro t s m sd hget hsd
    rw [LeveldbTrie.query_autonomy, hget]
    simp [hsd]
  · intro t s hget
    rw [LeveldbTrie.query_autonomy, hget]
  · intro t s m hget
    rw [LeveldbTrie.query_autonomy, hget]
    simp
  · intro cm s hnot
    induction cm with
    | nil => rfl
    | cons p rest ih =>
      obtain ⟨k, v⟩ := p
      have hks : ¬ k = s := by
        intro hk
        exact hnot v (by rw [hk]; exact List.mem_cons_self _ _)
      have hrest : ∀ v, (s, v) ∉ rest := fun w hw => hnot w (List.mem_cons_of_mem _ hw)
      simp [getCount, hks, ih hrest]
  · intro cm s hempty
    rw [query_entropy_c, hempty]
    simp [entropyOf]

/-- A Trie carrying a normalization entry (mean 0, stdev 1) for depth 1. -/
def trieNorm : LeveldbTrie :=
  { counts := [], normalization := [((0 : ℝ), (1 : ℝ))], dirty := false, maxDepth := 0 }

/-- Witness for claim C4 at a Trie with normalization entry (0, 1). -/
theorem claim_C4_autonomy_witness :
    trieNorm.query_autonomy ["a"] = some ((trieNorm.query_ev ["a"] - 0) / 1) :=
  claim_C4_autonomy.1 trieNorm ["a"] 0 1 rfl one_ne_zero

/-- The Storage of the spec's scenario: order 3, terminal "#", after
`add_sentence(["a","b","c"])` with the default frequency. -/
def storageABC : LeveldbStorage :=
  PyLeveldbStorage.add_sentence__ (mkStorage 3 ["#"])
    [PyObj.str "a", PyObj.str "b", PyObj.str "c"]

/-- Claim C5: in the order-3 Storage with terminal "#", after
`add_sentence(["a","b","c"])` the counts of ["#","a"], ["a","b"] and
["a","b","c"] are 1 and the count of ["x","y"] is 0; the sentence was
padded with terminals at both ends and every sliding window of every order
from 1 to 3 was added once. -/
theorem claim_C5_add_sentence :
    PyLeveldbStorage.query_count_ storageABC [PyObj.str "#", PyObj.str "a"] = some 1
    ∧ PyLeveldbStorage.query_count_ storageABC [PyObj.str "a", PyObj.str "b"] = some 1
    ∧ PyLeveldbStorage.query_count_ storageABC
        [PyObj.str "a", PyObj.str "b", PyObj.str "c"] = some 1
    ∧ PyLeveldbStorage.query_count_ storageABC [PyObj.str "x", PyObj.str "y"] = some 0
    ∧ paddedOf (mkStorage 3 ["#"]) ["a", "b", "c"]
        = ["#", "#", "a", "b", "c", "#", "#"]
    ∧ allWindows ["#", "a"] 2 = [["#"], ["a"], ["#", "a"]] := by
  refine ⟨?_, ?_, ?_, ?_, ?_, ?_⟩ <;> decide

theorem log2fuel_le (fuel : Nat) : ∀ (k n : Nat), n < 2 ^ (k + 1) → log2fuel fuel n ≤ k := by
  induction fuel with
  | zero =>
    intro k n _
    simp [log2fuel]
  | succ fuel ih =>
    intro k n h
    by_cases h2 : 2 ≤ n
    · rw [log2fuel, if_pos h2]
      cases k with
      | zero =>
        exfalso
        have : (2 : Nat) ^ 1 = 2 := by norm_num
        omega
      | succ k' =>
        have hdiv : n / 2 < 2 ^ (k' + 1) := by
          have hp : (2 : Nat) ^ (k' + 1 + 1) = 2 ^ (k' + 1) * 2 := by
            rw [pow_succ]
          rw [Nat.div_lt_iff_lt_mul (by norm_num)]
          omega
        exact Nat.succ_le_succ (ih k' (n / 2) hdiv)
    · rw [log2fuel, if_neg h2]
      exact Nat.zero_le _

theorem roundFloat32_eq_of_le (n : Nat) (h : n ≤ 2 ^ 24) : roundFloat32 n = n := by
  rcases Nat.lt_or_ge n (2 ^ 24) with hlt | hge
  · have hlog : natLog2 n ≤ 23 := log2fuel_le n 23 n hlt
    rw [roundFloat32, if_pos (by omega)]
  · have heq : n = 2 ^ 24 := by omega
    subst heq
    decide

theorem floatRoundInt_eq_of_le (z : Int) (h : z.natAbs ≤ 2 ^ 24) : floatRoundInt z = z := by
  rw [floatRoundInt, roundFloat32_eq_of_le _ h, Int.sign_mul_natAbs]

/-- The Storage holding the single 1-gram "a" with count 2^24 + 1. -/
def storageBig : LeveldbStorage :=
  (mkStorage 1 ["#"]).add_ngram ["a"] 16777217

/-- Counterexample to claim C9 as stated: the Storage `query_count`
binding returns a C `float`; at the stored count 2^24 + 1 = 16777217 it
reads 16777216, which differs from the exact integer count the Trie
itself holds. -/
theorem claim_C9_counterexample :
    PyLeveldbStorage.query_count_ storageBig [PyObj.str "a"]
        ≠ some ((storageBig.nthTrie 0).query_count ["a"])
    ∧ PyLeveldbStorage.query_count_ storageBig [PyObj.str "a"] = some 16777216
    ∧ (storageBig.nthTrie 0).query_count ["a"] = 16777217 := by
  refine ⟨?_, ?_, ?_⟩ <;> decide

/-- Claim C9 (amended): for sequences of supported length, the Storage
`query_count` binding returns the count stored by the Trie of order
`len(s)` converted to single-precision float — exactly that integer
whenever its magnitude is at most 2^24, but rounded beyond that. -/
theorem claim_C9_float_count (st : LeveldbStorage) (l : List PyObj)
    (h1 : 1 ≤ (convert l).length) (h2 : (convert l).length ≤ st.ngram_length) :
    PyLeveldbStorage.query_count_ st l
      = some (floatRoundInt ((st.nthTrie ((convert l).length - 1)).query_count (convert l)))
    ∧ (∀ z : Int, z.natAbs ≤ 2 ^ 24 → floatRoundInt z = z) := by
  constructor
  · rw [PyLeveldbStorage.query_count_, LeveldbStorage.query_count, if_pos ⟨h1, h2⟩]
    rfl
  · exact floatRoundInt_eq_of_le

/-- Witness for the amended claim C9 at the order-1 Storage holding "a". -/
theorem claim_C9_float_count_witness :
    PyLeveldbStorage.query_count_ storageBig [PyObj.str "a"]
      = some (floatRoundInt ((storageBig.nthTrie 0).query_count ["a"])) :=
  (claim_C9_float_count storageBig [PyObj.str "a"] (by decide) (by decide)).1

theorem log_two_pos_real : (0 : ℝ) < Real.log 2 :=
  Real.log_pos (by norm_num)

theorem log_ratio_32_lb : (84 : ℝ) * Real.log 2 < 53 * Real.log 3 := by
  have h : ((2 : ℝ) ^ (84 : ℕ)) < (3 : ℝ) ^ (53 : ℕ) := by norm_num
  have h2 := Real.log_lt_log (by positivity) h
  rw [Real.log_pow, Real.log_pow] at h2
  exact_mod_cast h2

theorem log_ratio_32_ub : (306 : ℝ) * Real.log 3 < 485 * Real.log 2 := by
  have h : ((3 : ℝ) ^ (306 : ℕ)) < (2 : ℝ) ^ (485 : ℕ) := by norm_num
  have h2 := Real.log_lt_log (by positivity) h
  rw [Real.log_pow, Real.log_pow] at h2
  exact_mod_cast h2

theorem log_ratio_52_lb : (65 : ℝ) * Real.log 2 < 28 * Real.log 5 := by
  have h : ((2 : ℝ) ^ (65 : ℕ)) < (5 : ℝ) ^ (28 : ℕ) := by norm_num
  have h2 := Real.log_lt_log (by positivity) h
  rw [Real.log_pow, Real.log_pow] at h2
  exact_mod_cast h2

theorem log_ratio_52_ub : (59 : ℝ) * Real.log 5 < 137 * Real.log 2 := by
  have h : ((5 : ℝ) ^ (59 : ℕ)) < (2 : ℝ) ^ (137 : ℕ) := by norm_num
  have h2 := Real.log_lt_log (by positivity) h
  rw [Real.log_pow, Real.log_pow] at h2
  exact_mod_cast h2

theorem entropyOf_six_four :
    entropyOf [6, 4]
      = -((6 / 10) * Real.logb 2 (6 / 10) + (4 / 10) * Real.logb 2 (4 / 10)) := by
  rw [entropyOf, if_neg (by decide), childTotal]
  simp only [List.map_cons, List.map_nil, List.sum_cons, List.sum_nil]
  push_cast
  norm_num

theorem entropy_six_four_closed :
    -((6 / 10) * Real.logb 2 ((6 : ℝ) / 10) + (4 / 10) * Real.logb 2 ((4 : ℝ) / 10))
      = (Real.log 5 - (3 / 5) * Real.log 3 - (2 / 5) * Real.log 2) / Real.log 2 := by
  have hne : Real.log 2 ≠ 0 := ne_of_gt log_two_pos_real
  have h6 : Real.log ((6 : ℝ) / 10) = Real.log 3 - Real.log 5 := by
    rw [show ((6 : ℝ) / 10) = 3 / 5 by norm_num,
      Real.log_div (by norm_num) (by norm_num)]
  have h4 : Real.log ((4 : ℝ) / 10) = Real.log 2 - Real.log 5 := by
    rw [show ((4 : ℝ) / 10) = 2 / 5 by norm_num,
      Real.log_div (by norm_num) (by norm_num)]
  simp only [Real.logb, h6, h4]
  field_simp
  ring

theorem entropyOf_single : entropyOf [6] = 0 := by
  rw [entropyOf, if_neg (by decide), childTotal]
  simp only [List.map_cons, List.map_nil, List.sum_cons, List.sum_nil]
  push_cast
  norm_num [Real.logb]

theorem entropyOf_equal : entropyOf [5, 5] = 1 := by
  have hne : Real.log 2 ≠ 0 := ne_of_gt log_two_pos_real
  have hhalf : Real.logb 2 ((1 : ℝ) / 2) = -1 := by
    rw [one_div, Real.logb, Real.log_inv, neg_div, div_self hne]
  rw [entropyOf, if_neg (by decide), childTotal]
  simp only [List.map_cons, List.map_nil, List.sum_cons, List.sum_nil]
  push_cast
  rw [show ((5 : ℝ) / (5 + (5 + 0))) = 1 / 2 by norm_num, hhalf]
  norm_num

/-- Claim C2: branching entropy of the distribution over the immediate
next token.  On the spec's scenario Trie (a ↦ 10, ab ↦ 6, ac ↦ 4) the
entropy of ["a"] over the children counts 6 and 4 equals
-(0.6·log2 0.6 + 0.4·log2 0.4) and lies strictly between 0.9704 and
0.9711 (≈ 0.971); a context with no children yields 0, not an error; a
single-child context yields 0; two equally frequent children yield 1. -/
theorem claim_C2_entropy :
    trieABC.query_entropy ["a"]
        = -((6 / 10) * Real.logb 2 (6 / 10) + (4 / 10) * Real.logb 2 (4 / 10))
    ∧ (0.9704 : ℝ) < trieABC.query_entropy ["a"]
    ∧ trieABC.query_entropy ["a"] < 0.9711
    ∧ trieABC.query_entropy ["a", "b"] = 0
    ∧ trieOne.query_entropy ["a"] = 0
    ∧ trieEq.query_entropy ["a"] = 1 := by
  have hlog2pos := log_two_pos_real
  have hch : childCounts trieABC.counts ["a"] = [6, 4] := by decide
  have hE : trieABC.query_entropy ["a"] = entropyOf [6, 4] := by
    rw [LeveldbTrie.query_entropy, query_entropy_c, hch]
  have hval : trieABC.query_entropy ["a"]
      = (Real.log 5 - (3 / 5) * Real.log 3 - (2 / 5) * Real.log 2) / Real.log 2 := by
    rw [hE, entropyOf_six_four, entropy_six_four_closed]
  refine ⟨by rw [hE, entropyOf_six_four], ?_, ?_, ?_, ?_, ?_⟩
  · rw [hval, lt_div_iff₀ hlog2pos]
    linarith [log_ratio_32_ub, log_ratio_52_lb]
  · rw [hval, div_lt_iff₀ hlog2pos]
    linarith [log_ratio_32_lb, log_ratio_52_ub]
  · have hch2 : childCounts trieABC.counts ["a", "b"] = [] := by decide
    rw [LeveldbTrie.query_entropy, query_entropy_c, hch2, entropyOf, if_pos rfl]
  · have hch3 : childCounts trieOne.counts ["a"] = [6] := by decide
    rw [LeveldbTrie.query_entropy, query_entropy_c, hch3, entropyOf_single]
  · have hch4 : childCounts trieEq.counts ["a"] = [5, 5] := by decide
    rw [LeveldbTrie.query_entropy, query_entropy_c, hch4, entropyOf_equal]
